import Mathlib

/-!
Verification of the lodestone HTML-profile decoder core.

The source core (src/model/profile.rs, src/model/gear.rs, src/model/domain.rs,
src/search.rs) decodes character-profile data out of parsed HTML documents and
builds search queries.  We embed the text-level decoding logic shallowly: HTML
node lookup is abstracted by passing each decoder the texts / attributes it
reads, and the external enumeration codecs (Server, Datacenter, Race, Clan,
Gender, ClassType, defined outside the included core) are taken as parameters.
Rust string primitives (`str::replace`, `str::split`, `str::split_whitespace`,
`trim_end_matches`, `char::is_digit(10)`, `u32::from_str`) are modelled
explicitly on `List Char` below.
-/

/-- Does `pat` occur as a prefix of `l`?  (Models `str::starts_with` used by
Rust pattern scanning.) -/
def startsWithL : List Char → List Char → Bool
  | [], _ => true
  | _ :: _, [] => false
  | p :: ps, c :: cs => p = c && startsWithL ps cs

/-- Fuelled scanner for `str::replace` (structural recursion on the fuel so
that concrete instances reduce in the kernel); the fuel is always instantiated
with the length of the scanned list, which bounds the number of steps. -/
def replaceF (pat rep : List Char) : Nat → List Char → List Char
  | _, [] => []
  | 0, l => l
  | fuel + 1, c :: cs =>
    if pat ≠ [] ∧ startsWithL pat (c :: cs) then
      rep ++ replaceF pat rep fuel (List.drop (pat.length - 1) cs)
    else
      c :: replaceF pat rep fuel cs

/-- Models Rust `str::replace(pat, rep)`: leftmost, non-overlapping; after a
match, scanning resumes after the replaced segment.  An empty pattern is never
used by the source, we leave the text unchanged in that case. -/
def replaceL (pat rep : List Char) (l : List Char) : List Char :=
  replaceF pat rep l.length l

/-- Models `str::replace` on `String`. -/
def replaceStr (s pat rep : String) : String :=
  (replaceL pat.toList rep.toList s.toList).asString

/-- Fuelled scanner for `str::split` (structural recursion on the fuel). -/
def splitOnF (sep : List Char) : Nat → List Char → List (List Char)
  | _, [] => [[]]
  | 0, l => [l]
  | fuel + 1, c :: cs =>
    if sep ≠ [] ∧ startsWithL sep (c :: cs) then
      [] :: splitOnF sep fuel (List.drop (sep.length - 1) cs)
    else
      match splitOnF sep fuel cs with
      | [] => [[c]]
      | t :: ts => (c :: t) :: ts

/-- Models Rust `str::split(sep)` collected to a vector: the pieces between
non-overlapping leftmost occurrences of `sep`; always at least one piece. -/
def splitOnL (sep : List Char) (l : List Char) : List (List Char) :=
  splitOnF sep l.length l

/-- `str::split(sep)` on `String`s. -/
def splitOnStr (s sep : String) : List String :=
  (splitOnL sep.toList s.toList).map List.asString

theorem length_dropWhile_le_len {α : Type} (p : α → Bool) (l : List α) :
    (l.dropWhile p).length ≤ l.length := by
  induction l with
  | nil => simp [List.dropWhile]
  | cons a l ih =>
    by_cases h : p a
    · simp only [List.dropWhile, h, List.length_cons]
      omega
    · simp [List.dropWhile, h]

/-- Fuelled scanner for `str::split_whitespace` (structural recursion on the
fuel). -/
def splitWsF : Nat → List Char → List (List Char)
  | _, [] => []
  | 0, _ => []
  | fuel + 1, c :: cs =>
    if c.isWhitespace then splitWsF fuel cs
    else
      (c :: cs.takeWhile (fun d => !d.isWhitespace)) ::
        splitWsF fuel (cs.dropWhile (fun d => !d.isWhitespace))

/-- Models Rust `str::split_whitespace`: maximal runs of non-whitespace
characters, empty runs dropped. -/
def splitWsL (l : List Char) : List (List Char) :=
  splitWsF l.length l

/-- `str::split_whitespace` on `String`s. -/
def splitWs (s : String) : List String :=
  (splitWsL s.toList).map List.asString

/-- Models Rust `str::trim_end_matches(ch)`: removes every trailing occurrence
of `ch`. -/
def trimEndChar (s : String) (ch : Char) : String :=
  ((s.toList.reverse.dropWhile (fun c => c = ch)).reverse).asString

/-- Numeric value of a digit string (most significant first). -/
def digitsVal (l : List Char) : Nat :=
  l.foldl (fun a c => 10 * a + (c.toNat - '0'.toNat)) 0

/-- Models Rust `<u32 as FromStr>::from_str`: an optional leading `'+'`, then a
non-empty run of decimal digits whose value fits in 32 bits; anything else is a
parse error (`none`). -/
def parseU32 (s : String) : Option Nat :=
  let cs := s.toList
  let ds := if cs.head? = some '+' then cs.tail else cs
  if ds ≠ [] ∧ ds.all (fun c => c.isDigit) ∧ digitsVal ds < 2 ^ 32 then
    some (digitsVal ds)
  else
    none

/-- The first maximal run of decimal digits in a string: skip to the first
digit, then take digits while they last (models the
`skip_while(!is_digit).take_while(is_digit)` chain of the source). -/
def firstDigitRun (s : String) : String :=
  ((s.toList.dropWhile (fun c => !c.isDigit)).takeWhile (fun c => c.isDigit)).asString

/-- The two error kinds of the source (`SearchError`), plus `parseFail` for the
numeric / lookup parse failures that the source converts into its generic
error type via `?`. -/
inductive SearchError where
  | nodeNotFound (s : String)
  | invalidData (s : String)
  | parseFail (s : String)
deriving DecidableEq

/-- Outcome of a Rust function that can also panic (used where the source
indexes a vector without a bounds check). -/
inductive RResult (α : Type) where
  | ok (a : α)
  | err (e : SearchError)
  | panicked
deriving DecidableEq

/-- The `ClassType` enumeration (defined in src/model/class.rs, outside the
included core).  The nine upgraded jobs and their nine base vocations, which
`Profile::parse_classes` names explicitly, are modelled as constructors; every
other class is handled uniformly by the decoder, so the remaining variants are
collapsed into `other`. -/
inductive ClassType where
  | Paladin | Gladiator
  | Warrior | Marauder
  | WhiteMage | Conjurer
  | Monk | Pugilist
  | Dragoon | Lancer
  | Ninja | Rogue
  | Bard | Archer
  | BlackMage | Thaumaturge
  | Summoner | Arcanist
  | other (s : String)
deriving DecidableEq

/-- `ClassInfo`: level with optional current / max experience. -/
structure ClassInfo where
  level : Nat
  current_xp : Option Nat
  max_xp : Option Nat
deriving DecidableEq

/-- Modelled from the spec: `Classes` (src/model/class.rs, not in the included
core) is a mapping from `ClassType` to optional `ClassInfo`. -/
def Classes := ClassType → Option (Option ClassInfo)

def Classes.empty : Classes := fun _ => none

def Classes.insert (m : Classes) (k : ClassType) (v : Option ClassInfo) : Classes :=
  fun x => if x = k then some v else m x

/-- Modelled from the spec: `Classes::get` — a key inserted with no `ClassInfo`
is equivalent to an absent key for querying purposes, so lookup flattens. -/
def Classes.get (m : Classes) (k : ClassType) : Option ClassInfo :=
  (m k).bind id

/-- `Profile::class_info`. -/
def classInfoOf (m : Classes) (c : ClassType) : Option ClassInfo := m.get c

/-- `Profile::level`. -/
def levelOf (m : Classes) (c : ClassType) : Option Nat :=
  match classInfoOf m c with
  | some v => some v.level
  | none => none

/-- The static upgraded-job → base-vocation association consulted by
`Profile::parse_classes` (the `match class` block). -/
def upgradeBase : ClassType → Option ClassType
  | .Paladin => some .Gladiator
  | .Warrior => some .Marauder
  | .WhiteMage => some .Conjurer
  | .Monk => some .Pugilist
  | .Dragoon => some .Lancer
  | .Ninja => some .Rogue
  | .Bard => some .Archer
  | .BlackMage => some .Thaumaturge
  | .Summoner => some .Arcanist
  | _ => none

/-- One `li` item of a class-listing content block: the texts of its name,
level and experience nodes. -/
structure ClassItem where
  name : String
  levelText : String
  expText : String

/-- One component of the experience text: `"--"` is `None`, anything else
parses as `u32` after removing `","`. -/
def decodeXpComponent (s : String) : Except SearchError (Option Nat) :=
  if s = "--" then .ok none
  else
    match parseU32 (replaceStr s "," "") with
    | some n => .ok (some n)
    | none => .error (.parseFail s)

/-- The `classinfo` computation of `Profile::parse_classes`: level text `"-"`
is unlocked-but-not-played; otherwise split the experience text on `" / "`
into current / max and parse level then both components. -/
def decodeClassInfo (levelText expText : String) : Except SearchError (Option ClassInfo) :=
  if levelText = "-" then .ok none
  else
    let parts := splitOnStr expText " / "
    match parts.get? 0, parts.get? 1 with
    | none, _ => .error (.invalidData "character__job__exp")
    | some _, none => .error (.invalidData "character__job__exp")
    | some cur, some mx =>
      match parseU32 levelText with
      | none => .error (.parseFail levelText)
      | some lvl =>
        match decodeXpComponent cur with
        | .error e => .error e
        | .ok cxp =>
          match decodeXpComponent mx with
          | .error e => .error e
          | .ok mxp => .ok (some ⟨lvl, cxp, mxp⟩)

/-- Decode one class-listing item: class info first, then the display name cut
at its `" / "` alternate-naming separator and decoded through the `ClassType`
codec (taken as a parameter, the codec lives outside the included core). -/
def decodeItem (ctFromStr : String → Except SearchError ClassType) (it : ClassItem) :
    Except SearchError (ClassType × Option ClassInfo) :=
  match decodeClassInfo it.levelText it.expText with
  | .error e => .error e
  | .ok classinfo =>
    match (splitOnStr it.name " / ").get? 0 with
    | none => .error (.invalidData "character__job__name")
    | some nm =>
      match ctFromStr nm with
      | .error e => .error e
      | .ok c => .ok (c, classinfo)

/-- The map insertions performed for one decoded item: an upgraded job writes
its base vocation first, then itself; every other class writes only itself. -/
def insertsFor (d : ClassType × Option ClassInfo) : List (ClassType × Option ClassInfo) :=
  match upgradeBase d.1 with
  | some b => [(b, d.2), (d.1, d.2)]
  | none => [d]

/-- `mapM` over `Except`, written recursively for easy reasoning. -/
def mapMEx {α β : Type} (f : α → Except SearchError β) : List α → Except SearchError (List β)
  | [] => .ok []
  | a :: as =>
    match f a with
    | .error e => .error e
    | .ok b =>
      match mapMEx f as with
      | .error e => .error e
      | .ok bs => .ok (b :: bs)

/-- The items visited by `Profile::parse_classes`: those of the first four
content blocks, in order (document abstracted as the lists of item texts per
block). -/
def itemsOf (blocks : List (List ClassItem)) : List ClassItem :=
  (blocks.take 4).foldr (fun b acc => b ++ acc) []

/-- Concatenated insertion events of a list of decoded items. -/
def eventsOf : List (ClassType × Option ClassInfo) → List (ClassType × Option ClassInfo)
  | [] => []
  | d :: rest => insertsFor d ++ eventsOf rest

/-- Replay a list of insertion events on a map. -/
def applyEvents (evs : List (ClassType × Option ClassInfo)) (m : Classes) : Classes :=
  evs.foldl (fun m kv => m.insert kv.1 kv.2) m

/-- The ordered insertion events produced by `Profile::parse_classes`. -/
def classEvents (ctFromStr : String → Except SearchError ClassType)
    (blocks : List (List ClassItem)) :
    Except SearchError (List (ClassType × Option ClassInfo)) :=
  match mapMEx (decodeItem ctFromStr) (itemsOf blocks) with
  | .error e => .error e
  | .ok ds => .ok (eventsOf ds)

/-- `Profile::parse_classes`: the final `Classes` map is the left fold of the
insertion events over the empty map. -/
def parse_classes (ctFromStr : String → Except SearchError ClassType)
    (blocks : List (List ClassItem)) : Except SearchError Classes :=
  match classEvents ctFromStr blocks with
  | .error e => .error e
  | .ok evs => .ok (applyEvents evs Classes.empty)

/-- Transient race / clan / gender triple (`CharInfo`). -/
structure CharInfo (R C G : Type) where
  race : R
  clan : C
  gender : G
deriving DecidableEq

/-- Transient server / datacenter pair (`HomeInfo`). -/
structure HomeInfo (S D : Type) where
  server : S
  datacenter : D
deriving DecidableEq

/-- The token list built by `Profile::parse_char_info` from the name block's
inner markup: spaces are protected as `_`, `<br>` and the `"_/_"` (originally
`" / "`) separators become spaces, then whitespace-split tokens restore `_`
back to spaces. -/
def charTokens (block : String) : List String :=
  (splitWs (replaceStr (replaceStr (replaceStr block " " "_") "<br>" " ") "_/_" " ")).map
    (fun e => replaceStr e "_" " ")

/-- `Profile::parse_char_info`, with the Race / Clan / Gender codecs (defined
outside the included core) as parameters; `aura` is the `Race::Aura`
constructor hard-coded by the 4-token branch. -/
def parse_char_info {R C G : Type} (aura : R)
    (raceFromStr : String → Except SearchError R)
    (clanFromStr : String → Except SearchError C)
    (genderFromStr : String → Except SearchError G)
    (block : String) : Except SearchError (CharInfo R C G) :=
  let char_info := charTokens block
  if char_info.length = 3 ∨ char_info.length = 4 then
    if char_info.length = 4 then
      match clanFromStr ((char_info.get? 2).getD "") with
      | .error e => .error e
      | .ok cl =>
        match genderFromStr ((char_info.get? 3).getD "") with
        | .error e => .error e
        | .ok g => .ok ⟨aura, cl, g⟩
    else
      match raceFromStr ((char_info.get? 0).getD "") with
      | .error e => .error e
      | .ok r =>
        match clanFromStr ((char_info.get? 1).getD "") with
        | .error e => .error e
        | .ok cl =>
          match genderFromStr ((char_info.get? 2).getD "") with
          | .error e => .error e
          | .ok g => .ok ⟨r, cl, g⟩
  else .error (.invalidData "character block name")

/-- `Profile::parse_home_info` on the text of the world node.  The source takes
the part before the first non-breaking space (`split(" ").next()` — never
`None`, so its `ensure!` guard cannot fire), whitespace-splits it with `[` and
`]` characters removed, then indexes positions 0 and 1 of the resulting vector
without a bounds check: a missing position is a Rust panic, modelled by
`RResult.panicked`.  Evaluation order follows the source: index 0, server
codec, index 1, datacenter codec. -/
def parse_home_info {S D : Type}
    (serverFromStr : String → Except SearchError S)
    (dcFromStr : String → Except SearchError D)
    (text : String) : RResult (HomeInfo S D) :=
  match (splitOnStr text "\u00A0").head? with
  | none => .err (.invalidData "Could not find server/datacenter string.")
  | some server =>
    let home_info := (splitWs server).map (fun e => replaceStr (replaceStr e "[" "") "]" "")
    match home_info.get? 0 with
    | none => .panicked
    | some h0 =>
      match serverFromStr h0 with
      | .error e => .err e
      | .ok srv =>
        match home_info.get? 1 with
        | none => .panicked
        | some h1 =>
          match dcFromStr h1 with
          | .error e => .err e
          | .ok dc => .ok ⟨srv, dc⟩

/-- `Profile::parse_gear_link` on the optional `href` of an item-detail link:
exactly 7 slash-delimited segments, the id is segment 5. -/
def parse_gear_link (href : Option String) : Except SearchError String :=
  match href with
  | some href =>
    let parts := splitOnStr href "/"
    if parts.length ≠ 7 then .error (.invalidData "invalid gear link")
    else .ok ((parts.get? 5).getD "")
  | none => .error (.invalidData "missing gear link")

/-- One search-result entry node, abstracted to what the `LightProfile`
decoders read from it: presence of the link node and its `href` attribute,
texts of the name and world nodes, and presence of the face image node with
its `src` attribute. -/
structure EntryNode where
  linkHref : Option (Option String)
  nameText : Option String
  worldText : Option String
  faceImgSrc : Option (Option String)

/-- `LightProfile::parse_user_id`: first maximal digit run of the link's
`href`, parsed as `u32`. -/
def parse_user_id (e : EntryNode) : Except SearchError Nat :=
  match e.linkHref with
  | none => .error (.nodeNotFound "Class(\"entry__link\")(0)")
  | some none => .error (.invalidData "missing user profile href")
  | some (some href) =>
    match parseU32 (firstDigitRun href) with
    | some n => .ok n
    | none => .error (.parseFail (firstDigitRun href))

/-- `LightProfile::parse_home`: world text split on the literal `" ["`, exactly
two parts, part 0 through the Server codec and part 1 with trailing `]`
trimmed through the Datacenter codec (codecs as parameters). -/
def parse_home {S D : Type}
    (serverFromStr : String → Except SearchError S)
    (dcFromStr : String → Except SearchError D)
    (e : EntryNode) : Except SearchError (HomeInfo S D) :=
  match e.worldText with
  | none => .error (.nodeNotFound "Class(\"entry__world\")(0)")
  | some text =>
    let parts := splitOnStr text " ["
    if parts.length = 2 then
      match serverFromStr ((parts.get? 0).getD "") with
      | .error er => .error er
      | .ok s =>
        match dcFromStr (trimEndChar ((parts.get? 1).getD "") ']') with
        | .error er => .error er
        | .ok d => .ok ⟨s, d⟩
    else .error (.invalidData "entry__world")

/-- `LightProfile::parse_name`. -/
def parse_entry_name (e : EntryNode) : Except SearchError String :=
  match e.nameText with
  | none => .error (.nodeNotFound "Class(\"entry__name\")(0)")
  | some t => .ok t

/-- `LightProfile::parse_image_url` for the face container. -/
def parse_entry_image_url (e : EntryNode) : Except SearchError String :=
  match e.faceImgSrc with
  | none => .error (.nodeNotFound "Class(class).descendant(Name(\"img\"))(0)")
  | some none => .error (.invalidData "missing image source")
  | some (some src) => .ok src

/-- `LightProfile` record. -/
structure LightProfile (S D : Type) where
  user_id : Nat
  name : String
  server : S
  datacenter : D
  face_portrait_url : String
deriving DecidableEq

/-- `LightProfile::create_from`: home info first, then the record fields in
declaration order; the first failure aborts the whole record. -/
def create_from {S D : Type}
    (serverFromStr : String → Except SearchError S)
    (dcFromStr : String → Except SearchError D)
    (e : EntryNode) : Except SearchError (LightProfile S D) :=
  match parse_home serverFromStr dcFromStr e with
  | .error er => .error er
  | .ok home =>
    match parse_user_id e with
    | .error er => .error er
    | .ok uid =>
      match parse_entry_name e with
      | .error er => .error er
      | .ok nm =>
        match parse_entry_image_url e with
        | .error er => .error er
        | .ok face => .ok ⟨uid, nm, home.server, home.datacenter, face⟩

/-- `SearchBuilder::send_light` after the response document has been fetched
and parsed: each entry node under the results marker is decoded and a failing
entry is logged and dropped (`filter_map`); the call itself succeeds. -/
def send_light {S D : Type}
    (serverFromStr : String → Except SearchError S)
    (dcFromStr : String → Except SearchError D)
    (entries : List EntryNode) : Except SearchError (List (LightProfile S D)) :=
  .ok (entries.filterMap (fun e =>
    match create_from serverFromStr dcFromStr e with
    | .ok profile => some profile
    | .error _ => none))

/-- `SearchBuilder` criteria state, over abstract Domain / Server / Datacenter
/ Language / GrandCompany enumerations; the two hash sets are modelled as
duplicate-free lists. -/
structure SearchBuilder (Dom S D L G : Type) where
  domain : Option Dom
  server : Option S
  datacenter : Option D
  character : Option String
  lang : List L
  gc : List G

/-- `SearchBuilder::new` (all criteria empty, via `Default`). -/
def SearchBuilder.new {Dom S D L G : Type} : SearchBuilder Dom S D L G :=
  ⟨none, none, none, none, [], []⟩

/-- `SearchBuilder::domain`. -/
def SearchBuilder.setDomain {Dom S D L G : Type} (b : SearchBuilder Dom S D L G)
    (d : Dom) : SearchBuilder Dom S D L G :=
  { b with domain := some d }

/-- `SearchBuilder::character`. -/
def SearchBuilder.setCharacter {Dom S D L G : Type} (b : SearchBuilder Dom S D L G)
    (n : String) : SearchBuilder Dom S D L G :=
  { b with character := some n }

/-- `SearchBuilder::datacenter`: sets the datacenter and clears the server. -/
def SearchBuilder.setDatacenter {Dom S D L G : Type} (b : SearchBuilder Dom S D L G)
    (d : D) : SearchBuilder Dom S D L G :=
  { b with datacenter := some d, server := none }

/-- `SearchBuilder::server`: sets the server and clears the datacenter. -/
def SearchBuilder.setServer {Dom S D L G : Type} (b : SearchBuilder Dom S D L G)
    (s : S) : SearchBuilder Dom S D L G :=
  { b with server := some s, datacenter := none }

/-- `SearchBuilder::lang`: adds to the language set. -/
def SearchBuilder.addLang {Dom S D L G : Type} [DecidableEq L]
    (b : SearchBuilder Dom S D L G) (l : L) : SearchBuilder Dom S D L G :=
  { b with lang := b.lang.insert l }

/-- `SearchBuilder::grand_company`: adds to the grand-company set. -/
def SearchBuilder.addGrandCompany {Dom S D L G : Type} [DecidableEq G]
    (b : SearchBuilder Dom S D L G) (g : G) : SearchBuilder Dom S D L G :=
  { b with gc := b.gc.insert g }

/-- Builder states reachable by any chain of fluent calls from
`SearchBuilder::new`. -/
inductive ReachableBuilder {Dom S D L G : Type} [DecidableEq L] [DecidableEq G] :
    SearchBuilder Dom S D L G → Prop where
  | new : ReachableBuilder SearchBuilder.new
  | dom (b : SearchBuilder Dom S D L G) (d : Dom) :
      ReachableBuilder b → ReachableBuilder (b.setDomain d)
  | chara (b : SearchBuilder Dom S D L G) (n : String) :
      ReachableBuilder b → ReachableBuilder (b.setCharacter n)
  | dc (b : SearchBuilder Dom S D L G) (d : D) :
      ReachableBuilder b → ReachableBuilder (b.setDatacenter d)
  | srv (b : SearchBuilder Dom S D L G) (s : S) :
      ReachableBuilder b → ReachableBuilder (b.setServer s)
  | lng (b : SearchBuilder Dom S D L G) (l : L) :
      ReachableBuilder b → ReachableBuilder (b.addLang l)
  | gco (b : SearchBuilder Dom S D L G) (g : G) :
      ReachableBuilder b → ReachableBuilder (b.addGrandCompany g)

/-! ## General helper lemmas -/

theorem asString_toList (s : String) : s.toList.asString = s := rfl

theorem startsWithL_iff (p : List Char) : ∀ l, startsWithL p l = true ↔ p <+: l := by
  induction p with
  | nil => intro l; simp [startsWithL, List.nil_prefix]
  | cons a p ih =>
    intro l
    cases l with
    | nil => simp [startsWithL]
    | cons c cs =>
      simp [startsWithL, List.cons_prefix_cons, ih]

theorem splitOnF_sep_absent (sep : List Char) :
    ∀ (fuel : Nat) (l : List Char), l.length ≤ fuel → ¬ List.IsInfix sep l →
      splitOnF sep fuel l = [l] := by
  intro fuel
  induction fuel with
  | zero =>
    intro l hl _
    cases l with
    | nil => rfl
    | cons c cs => simp at hl
  | succ fuel ih =>
    intro l hl hinf
    cases l with
    | nil => rfl
    | cons c cs =>
      have hpre : ¬ (sep ≠ [] ∧ startsWithL sep (c :: cs) = true) := by
        rintro ⟨-, hs⟩
        exact hinf ((startsWithL_iff sep (c :: cs)).mp hs).isInfix
      rw [splitOnF, if_neg hpre]
      have hcs : splitOnF sep fuel cs = [cs] := by
        apply ih
        · simpa using Nat.le_of_succ_le_succ hl
        · intro h
          exact hinf (List.infix_cons h)
      rw [hcs]

theorem dropWhile_append_all {α : Type} (p : α → Bool) (l1 l2 : List α)
    (h : ∀ a ∈ l1, p a = true) : (l1 ++ l2).dropWhile p = l2.dropWhile p := by
  induction l1 with
  | nil => rfl
  | cons a l1 ih =>
    simp only [List.cons_append, List.dropWhile_cons, h a (by simp)]
    exact ih (fun a ha => h a (by simp [ha]))

theorem takeWhile_append_all {α : Type} (p : α → Bool) (l1 l2 : List α)
    (h : ∀ a ∈ l1, p a = true) : (l1 ++ l2).takeWhile p = l1 ++ l2.takeWhile p := by
  induction l1 with
  | nil => rfl
  | cons a l1 ih =>
    simp only [List.cons_append, List.takeWhile_cons, h a (by simp), if_true]
    rw [ih (fun a ha => h a (by simp [ha]))]

theorem mapMEx_ok_forall {α β : Type} (f : α → Except SearchError β) :
    ∀ (l : List α) (ds : List β), mapMEx f l = .ok ds →
      ∀ d ∈ ds, ∃ a ∈ l, f a = .ok d := by
  intro l
  induction l with
  | nil =>
    intro ds h d hd
    simp only [mapMEx] at h
    cases h
    simp at hd
  | cons a l ih =>
    intro ds h d hd
    simp only [mapMEx] at h
    cases hfa : f a with
    | error e => rw [hfa] at h; cases h
    | ok b =>
      rw [hfa] at h
      cases hrest : mapMEx f l with
      | error e => rw [hrest] at h; cases h
      | ok bs =>
        rw [hrest] at h
        cases h
        rcases List.mem_cons.mp hd with h1 | h2
        · exact ⟨a, by simp, by rw [hfa, h1]⟩
        · obtain ⟨a', ha', hfa'⟩ := ih bs hrest d h2
          exact ⟨a', by simp [ha'], hfa'⟩

theorem applyEvents_append (l1 l2 : List (ClassType × Option ClassInfo)) (m : Classes) :
    applyEvents (l1 ++ l2) m = applyEvents l2 (applyEvents l1 m) := by
  simp [applyEvents, List.foldl_append]

/-- Inverse of the association table: base vocation → upgraded job. -/
def baseUpgrade : ClassType → Option ClassType
  | .Gladiator => some .Paladin
  | .Marauder => some .Warrior
  | .Conjurer => some .WhiteMage
  | .Pugilist => some .Monk
  | .Lancer => some .Dragoon
  | .Rogue => some .Ninja
  | .Archer => some .Bard
  | .Thaumaturge => some .BlackMage
  | .Arcanist => some .Summoner
  | _ => none

theorem baseUpgrade_of_upgradeBase {u b : ClassType} (h : upgradeBase u = some b) :
    baseUpgrade b = some u := by
  cases u <;> simp_all [upgradeBase] <;> simp [← h, baseUpgrade]

theorem upgradeBase_of_base {u b : ClassType} (h : upgradeBase u = some b) :
    upgradeBase b = none := by
  cases u <;> simp_all [upgradeBase] <;> simp [← h, upgradeBase]

theorem upgradeBase_inj {u c b : ClassType} (hu : upgradeBase u = some b)
    (hc : upgradeBase c = some b) : c = u := by
  have h1 := baseUpgrade_of_upgradeBase hu
  have h2 := baseUpgrade_of_upgradeBase hc
  rw [h1] at h2
  exact (Option.some.inj h2).symm

theorem base_ne_upgraded {u b : ClassType} (h : upgradeBase u = some b) : b ≠ u := by
  intro e
  have hb : upgradeBase b = none := upgradeBase_of_base h
  rw [← e] at h
  rw [hb] at h
  cases h

theorem eventsOf_pred {u b : ClassType} (hub : upgradeBase u = some b) :
    ∀ (ds : List (ClassType × Option ClassInfo)) (i : Nat) (v : Option ClassInfo),
      (eventsOf ds).get? i = some (u, v) →
      1 ≤ i ∧ (eventsOf ds).get? (i - 1) = some (b, v) := by
  intro ds
  induction ds with
  | nil =>
    intro i v h
    simp [eventsOf, List.get?] at h
  | cons d rest ih =>
    intro i v h
    cases hb : upgradeBase d.1 with
    | some bd =>
      have hblock : insertsFor d = [(bd, d.2), (d.1, d.2)] := by
        simp [insertsFor, hb]
      simp only [eventsOf, hblock, List.cons_append, List.nil_append] at h ⊢
      match i with
      | 0 =>
        exfalso
        simp only [List.get?] at h
        injection h with h'
        have e1 : bd = u := congrArg Prod.fst h'
        have hn : upgradeBase bd = none := upgradeBase_of_base hb
        rw [e1, hub] at hn
        cases hn
      | 1 =>
        simp only [List.get?] at h ⊢
        injection h with h'
        have e1 : d.1 = u := congrArg Prod.fst h'
        have e2 : d.2 = v := congrArg Prod.snd h'
        have hbd : bd = b := by
          rw [e1, hub] at hb
          exact (Option.some.inj hb).symm
        exact ⟨le_refl 1, by rw [hbd, e2]⟩
      | (n + 2) =>
        simp only [List.get?] at h
        obtain ⟨h1, h2⟩ := ih n v h
        refine ⟨by omega, ?_⟩
        have he : n + 2 - 1 = (n - 1) + 2 := by omega
        rw [he]
        simp only [List.get?]
        exact h2
    | none =>
      have hblock : insertsFor d = [d] := by
        simp [insertsFor, hb]
      simp only [eventsOf, hblock, List.cons_append, List.nil_append] at h ⊢
      match i with
      | 0 =>
        exfalso
        simp only [List.get?] at h
        injection h with h'
        have e1 : d.1 = u := congrArg Prod.fst h'
        rw [e1, hub] at hb
        cases hb
      | (n + 1) =>
        simp only [List.get?] at h
        obtain ⟨h1, h2⟩ := ih n v h
        refine ⟨by omega, ?_⟩
        have he : n + 1 - 1 = (n - 1) + 1 := by omega
        rw [he]
        simp only [List.get?]
        exact h2

theorem insert_pair_pres {u b : ClassType} (hub : upgradeBase u = some b)
    (c : ClassType) (val : Option ClassInfo) (hc : c ≠ b) (m : Classes)
    (hm : m b = m u) :
    applyEvents (insertsFor (c, val)) m b = applyEvents (insertsFor (c, val)) m u := by
  have hbu : b ≠ u := base_ne_upgraded hub
  cases hb : upgradeBase c with
  | some bd =>
    simp only [insertsFor, hb, applyEvents, List.foldl_cons, List.foldl_nil]
    by_cases he : c = u
    · subst he
      have hbd : bd = b := by
        rw [hub] at hb
        exact (Option.some.inj hb).symm
      subst hbd
      simp [Classes.insert, hbu, Ne.symm hbu]
    · have hbdb : bd ≠ b := by
        intro e
        rw [e] at hb
        exact he (upgradeBase_inj hub hb)
      have hbdu : bd ≠ u := by
        intro e
        have := upgradeBase_of_base hb
        rw [e, hub] at this
        cases this
      simp only [Classes.insert]
      rw [if_neg (Ne.symm hc), if_neg (Ne.symm hbdb), if_neg (fun e => he e.symm),
        if_neg (Ne.symm hbdu)]
      exact hm
  | none =>
    have hcu : c ≠ u := by
      intro e
      rw [e, hub] at hb
      cases hb
    simp only [insertsFor, hb, applyEvents, List.foldl_cons, List.foldl_nil, Classes.insert]
    rw [if_neg (Ne.symm hc), if_neg (Ne.symm hcu)]
    exact hm

theorem eventsOf_fold_eq {u b : ClassType} (hub : upgradeBase u = some b) :
    ∀ ds : List (ClassType × Option ClassInfo), (∀ d ∈ ds, d.1 ≠ b) →
      ∀ m : Classes, m b = m u →
        applyEvents (eventsOf ds) m b = applyEvents (eventsOf ds) m u := by
  intro ds
  induction ds with
  | nil => intro _ m hm; exact hm
  | cons d rest ih =>
    intro hnb m hm
    simp only [eventsOf, applyEvents_append]
    apply ih (fun d' hd' => hnb d' (List.mem_cons_of_mem _ hd'))
    obtain ⟨c, val⟩ := d
    exact insert_pair_pres hub c val (hnb (c, val) (by simp)) m hm

/-- Test instance of the external `ClassType` string codec, for concrete
witnesses. -/
def demoClassCodec : String → Except SearchError ClassType := fun s =>
  match s with
  | "Paladin" => .ok .Paladin
  | "Gladiator" => .ok .Gladiator
  | "Carpenter" => .ok (.other "Carpenter")
  | _ => .error (.parseFail s)

/-- Test class-listing document: one block, one item, an upgraded job. -/
def demoBlocks : List (List ClassItem) :=
  [[⟨"Paladin / Gladiator", "80", "-- / --"⟩]]

/-- C1: in every successful decode of a class-listing document, each insertion
of a `ClassInfo` under an upgraded-job key is immediately preceded by an
insertion of the identical value under its paired base-vocation key (base
written first); consequently, when no item of the document decodes directly to
the base vocation, the final map gives the base key exactly the upgraded job's
entry. -/
theorem parse_classes_upgrade_invariant
    (f : String → Except SearchError ClassType) (blocks : List (List ClassItem))
    (u b : ClassType) (hub : upgradeBase u = some b) :
    (∀ evs i v, classEvents f blocks = .ok evs → evs.get? i = some (u, v) →
        1 ≤ i ∧ evs.get? (i - 1) = some (b, v))
    ∧ (∀ m, parse_classes f blocks = .ok m →
        (∀ it ∈ itemsOf blocks, ∀ r, decodeItem f it = .ok r → r.1 ≠ b) →
        m b = m u) := by
  constructor
  · intro evs i v hok hget
    unfold classEvents at hok
    cases hds : mapMEx (decodeItem f) (itemsOf blocks) with
    | error e => rw [hds] at hok; cases hok
    | ok ds =>
      rw [hds] at hok
      cases hok
      exact eventsOf_pred hub ds i v hget
  · intro m hok hnb
    unfold parse_classes at hok
    cases hev : classEvents f blocks with
    | error e => rw [hev] at hok; cases hok
    | ok evs =>
      rw [hev] at hok
      cases hok
      unfold classEvents at hev
      cases hds : mapMEx (decodeItem f) (itemsOf blocks) with
      | error e => rw [hds] at hev; cases hev
      | ok ds =>
        rw [hds] at hev
        cases hev
        apply eventsOf_fold_eq hub ds ?_ Classes.empty rfl
        intro d hd
        obtain ⟨a, ha, hfa⟩ := mapMEx_ok_forall _ _ _ hds d hd
        exact hnb a ha d hfa

/-- Witness for C1 on a concrete document: the upgraded-job event at index 1
is preceded by its base event at index 0, and the final map agrees on
`Gladiator` and `Paladin`. -/
theorem parse_classes_upgrade_invariant_witness :
    (1 ≤ 1 ∧ ([(ClassType.Gladiator, some (⟨80, none, none⟩ : ClassInfo)),
        (ClassType.Paladin, some ⟨80, none, none⟩)] :
          List (ClassType × Option ClassInfo)).get? (1 - 1) =
        some (.Gladiator, some ⟨80, none, none⟩))
    ∧ (applyEvents [(ClassType.Gladiator, some (⟨80, none, none⟩ : ClassInfo)),
        (ClassType.Paladin, some ⟨80, none, none⟩)] Classes.empty) .Gladiator =
      (applyEvents [(ClassType.Gladiator, some (⟨80, none, none⟩ : ClassInfo)),
        (ClassType.Paladin, some ⟨80, none, none⟩)] Classes.empty) .Paladin := by
  constructor
  · exact (parse_classes_upgrade_invariant demoClassCodec demoBlocks
      .Paladin .Gladiator rfl).1 _ 1 _ rfl rfl
  · apply (parse_classes_upgrade_invariant demoClassCodec demoBlocks
      .Paladin .Gladiator rfl).2 _ rfl
    intro it hit r hr
    have he : it = (⟨"Paladin / Gladiator", "80", "-- / --"⟩ : ClassItem) := by
      simpa [itemsOf, demoBlocks] using hit
    subst he
    have hd : decodeItem demoClassCodec ⟨"Paladin / Gladiator", "80", "-- / --"⟩ =
        .ok (.Paladin, some ⟨80, none, none⟩) := rfl
    rw [hd] at hr
    injection hr with hr'
    rw [← hr']
    simp

/-- Test instance of an external string codec that accepts every code. -/
def okCodec : String → Except SearchError String := fun s => .ok s

/-- C2: the character-info decoder normalizes the name block and splits it
into tokens; exactly 3 tokens decode positionally through the race / clan /
gender codecs, exactly 4 tokens hard-code the race to `Race::Aura` (the one
space-containing race), discard tokens 0 and 1 and decode tokens 2 and 3 as
clan and gender, and every other token count fails with `InvalidData`. -/
theorem parse_char_info_tokens {R C G : Type} (a : R)
    (rc : String → Except SearchError R) (cc : String → Except SearchError C)
    (gc : String → Except SearchError G) (block : String) (toks : List String)
    (ht : charTokens block = toks) :
    (toks.length = 3 →
      parse_char_info a rc cc gc block =
        match rc ((toks.get? 0).getD "") with
        | .error e => .error e
        | .ok r =>
          match cc ((toks.get? 1).getD "") with
          | .error e => .error e
          | .ok cl =>
            match gc ((toks.get? 2).getD "") with
            | .error e => .error e
            | .ok g => .ok ⟨r, cl, g⟩)
    ∧ (toks.length = 4 →
      parse_char_info a rc cc gc block =
        match cc ((toks.get? 2).getD "") with
        | .error e => .error e
        | .ok cl =>
          match gc ((toks.get? 3).getD "") with
          | .error e => .error e
          | .ok g => .ok ⟨a, cl, g⟩)
    ∧ (toks.length ≠ 3 → toks.length ≠ 4 →
        parse_char_info a rc cc gc block = .error (.invalidData "character block name")) := by
  subst ht
  refine ⟨?_, ?_, ?_⟩
  · intro h3
    simp only [parse_char_info]
    rw [if_pos (Or.inl h3), if_neg (by omega)]
  · intro h4
    simp only [parse_char_info]
    rw [if_pos (Or.inr h4), if_pos h4]
  · intro h3 h4
    simp only [parse_char_info]
    rw [if_neg (by simp [h3, h4])]

/-- Witness for C2: a 3-token block, a 4-token block and a 2-token block, with
identity test codecs. -/
theorem parse_char_info_tokens_witness :
    parse_char_info "Au Ra" okCodec okCodec okCodec "Lalafell<br>Plainsfolk / Male" =
      .ok ⟨"Lalafell", "Plainsfolk", "Male"⟩
    ∧ parse_char_info "Au Ra" okCodec okCodec okCodec "Au<br>Ra<br>Raen<br>Male" =
      .ok ⟨"Au Ra", "Raen", "Male"⟩
    ∧ parse_char_info "Au Ra" okCodec okCodec okCodec "a<br>b" =
      .error (.invalidData "character block name") :=
  ⟨((parse_char_info_tokens "Au Ra" okCodec okCodec okCodec
      "Lalafell<br>Plainsfolk / Male" ["Lalafell", "Plainsfolk", "Male"] rfl).1
      (by decide)).trans rfl,
   ((parse_char_info_tokens "Au Ra" okCodec okCodec okCodec
      "Au<br>Ra<br>Raen<br>Male" ["Au", "Ra", "Raen", "Male"] rfl).2.1
      (by decide)).trans rfl,
   (parse_char_info_tokens "Au Ra" okCodec okCodec okCodec
      "a<br>b" ["a", "b"] rfl).2.2 (by decide) (by decide)⟩

/-- C3: the gear-link parser succeeds exactly when the reference has exactly 7
slash-delimited segments, returning segment index 5; any other segment count
and a missing reference fail with `InvalidData`. -/
theorem parse_gear_link_segments :
    (∀ href r, parse_gear_link (some href) = .ok r ↔
        (splitOnStr href "/").length = 7 ∧ (splitOnStr href "/").get? 5 = some r)
    ∧ (∀ href, (splitOnStr href "/").length ≠ 7 →
        parse_gear_link (some href) = .error (.invalidData "invalid gear link"))
    ∧ parse_gear_link none = .error (.invalidData "missing gear link")
    ∧ parse_gear_link (some "/lodestone/playguide/db/item/23c482f7f46/") = .ok "23c482f7f46"
    ∧ parse_gear_link (some "/lodestone/playguide/db/item/23c482f7f46") =
        .error (.invalidData "invalid gear link")
    ∧ parse_gear_link (some "/lodestone/playguide/db/item/23c482f7f46//") =
        .error (.invalidData "invalid gear link") := by
  refine ⟨?_, ?_, rfl, rfl, rfl, rfl⟩
  · intro href r
    simp only [parse_gear_link]
    by_cases h : (splitOnStr href "/").length = 7
    · rw [if_neg (by omega)]
      cases hg : (splitOnStr href "/").get? 5 with
      | none =>
        exfalso
        rw [List.get?_eq_none] at hg
        omega
      | some a =>
        simp [hg, h]
    · rw [if_pos h]
      simp [h]
  · intro href h
    simp only [parse_gear_link]
    rw [if_pos h]

/-- Witness for C3 at a 2-segment reference. -/
theorem parse_gear_link_segments_witness :
    parse_gear_link (some "a/b") = .error (.invalidData "invalid gear link") :=
  parse_gear_link_segments.2.1 "a/b" (by decide)

/-- C4: `Profile::parse_home_info` indexes positions 0 and 1 of the
whitespace-token vector without a bounds check.  When the split yields no
token the decoder panics at index 0; when it yields one token it panics at
index 1 unless the server codec fails first.  In particular the empty world
text panics for every codec — the decoder does not return an error result on
these inputs. -/
theorem parse_home_info_short_panics {S D : Type}
    (sc : String → Except SearchError S) (dc : String → Except SearchError D) :
    (∀ text server, (splitOnStr text "\u00A0").head? = some server →
        (splitWs server).map (fun e => replaceStr (replaceStr e "[" "") "]" "") = [] →
        parse_home_info sc dc text = .panicked)
    ∧ (∀ text server t, (splitOnStr text "\u00A0").head? = some server →
        (splitWs server).map (fun e => replaceStr (replaceStr e "[" "") "]" "") = [t] →
        parse_home_info sc dc text =
          match sc t with
          | .error e => .err e
          | .ok _ => .panicked)
    ∧ parse_home_info sc dc "" = .panicked := by
  refine ⟨?_, ?_, rfl⟩
  · intro text server hs hmap
    simp only [parse_home_info]
    rw [hs]
    simp only [hmap, List.get?]
  · intro text server t hs hmap
    simp only [parse_home_info]
    rw [hs]
    simp only [hmap, List.get?]

/-- Witness for C4: a one-token world text with a succeeding test codec makes
the full-record home-info decoder panic. -/
theorem parse_home_info_short_panics_witness :
    parse_home_info okCodec okCodec "Gilgamesh" = .panicked :=
  ((parse_home_info_short_panics okCodec okCodec).2.1 "Gilgamesh" "Gilgamesh"
    "Gilgamesh" rfl rfl).trans rfl

/-- C5: an experience component of literal `"--"` decodes to no value, any
other component decodes to the unsigned integer of its text with `","`
removed (failing when that does not parse); for a numeric level the
experience text is split on `" / "` into current and max components, and the
two cited examples evaluate as stated. -/
theorem parse_experience_components :
    decodeXpComponent "--" = .ok none
    ∧ (∀ s n, s ≠ "--" → parseU32 (replaceStr s "," "") = some n →
        decodeXpComponent s = .ok (some n))
    ∧ (∀ s, s ≠ "--" → parseU32 (replaceStr s "," "") = none →
        decodeXpComponent s = .error (.parseFail s))
    ∧ (∀ lv ex l cur mx rest, lv ≠ "-" → parseU32 lv = some l →
        splitOnStr ex " / " = cur :: mx :: rest →
        decodeClassInfo lv ex =
          match decodeXpComponent cur with
          | .error e => .error e
          | .ok c =>
            match decodeXpComponent mx with
            | .error e => .error e
            | .ok m => .ok (some ⟨l, c, m⟩))
    ∧ decodeClassInfo "80" "1,234 / 2,000" = .ok (some ⟨80, some 1234, some 2000⟩)
    ∧ decodeClassInfo "90" "-- / --" = .ok (some ⟨90, none, none⟩) := by
  refine ⟨rfl, ?_, ?_, ?_, rfl, rfl⟩
  · intro s n hs hp
    simp only [decodeXpComponent]
    rw [if_neg hs, hp]
  · intro s hs hp
    simp only [decodeXpComponent]
    rw [if_neg hs, hp]
  · intro lv ex l cur mx rest hlv hl hsplit
    simp only [decodeClassInfo]
    rw [if_neg hlv]
    simp only [hsplit, List.get?, hl]

/-- Witness for C5: the component `"1,234"` decodes to 1234. -/
theorem parse_experience_components_witness :
    decodeXpComponent "1,234" = .ok (some 1234) :=
  parse_experience_components.2.1 "1,234" 1234 (by decide) (by decide)

/-- C6: the abbreviated home-info decoder splits the world text on the literal
`" ["`; exactly two parts decode part 0 as server and part 1 with trailing `]`
trimmed as datacenter through the codecs, any other part count — in
particular text without a `" ["` substring — fails with `InvalidData`. -/
theorem parse_home_bracket_split {S D : Type}
    (sc : String → Except SearchError S) (dc : String → Except SearchError D) :
    (∀ e text, e.worldText = some text → (splitOnStr text " [").length = 2 →
      parse_home sc dc e =
        match sc (((splitOnStr text " [").get? 0).getD "") with
        | .error er => .error er
        | .ok s =>
          match dc (trimEndChar (((splitOnStr text " [").get? 1).getD "") ']') with
          | .error er => .error er
          | .ok d => .ok ⟨s, d⟩)
    ∧ (∀ e text, e.worldText = some text → (splitOnStr text " [").length ≠ 2 →
        parse_home sc dc e = .error (.invalidData "entry__world"))
    ∧ (∀ e text, e.worldText = some text → ¬ List.IsInfix " [".toList text.toList →
        parse_home sc dc e = .error (.invalidData "entry__world")) := by
  have h2 : ∀ (e : EntryNode) text, e.worldText = some text →
      (splitOnStr text " [").length ≠ 2 →
      parse_home sc dc e = .error (.invalidData "entry__world") := by
    intro e text he hl
    simp only [parse_home]
    rw [he]
    simp only [if_neg hl]
  refine ⟨?_, h2, ?_⟩
  · intro e text he hl
    simp only [parse_home]
    rw [he]
    simp only [if_pos hl]
  · intro e text he hinf
    apply h2 e text he
    have hs : splitOnStr text " [" = [text] := by
      simp only [splitOnStr, splitOnL]
      rw [splitOnF_sep_absent " [".toList text.toList.length text.toList (le_refl _) hinf]
      simp only [List.map_cons, List.map_nil, asString_toList]
    rw [hs]
    simp

/-- Witness for C6: `"Gilgamesh [Primal]"` decodes to server and datacenter
with identity test codecs, and text without the separator fails. -/
theorem parse_home_bracket_split_witness :
    parse_home okCodec okCodec ⟨some (some "/x/"), some "N", some "Gilgamesh [Primal]",
        some (some "img")⟩ = .ok ⟨"Gilgamesh", "Primal"⟩
    ∧ parse_home okCodec okCodec ⟨some (some "/x/"), some "N", some "Gilgamesh Primal",
        some (some "img")⟩ = .error (.invalidData "entry__world") :=
  ⟨((parse_home_bracket_split okCodec okCodec).1 _ "Gilgamesh [Primal]" rfl
      (by decide)).trans rfl,
   (parse_home_bracket_split okCodec okCodec).2.1 _ "Gilgamesh Primal" rfl (by decide)⟩

theorem toList_asString (l : List Char) : l.asString.toList = l := rfl

/-- C7: the user-id decoder fails when the link node is absent, when the
`href` attribute is missing, and otherwise parses the first maximal run of
decimal digits of the reference as a `u32` — failing when the reference has
no digits (empty run) or the run's value overflows 32 bits. -/
theorem parse_user_id_digit_run :
    (∀ e, e.linkHref = none →
        parse_user_id e = .error (.nodeNotFound "Class(\"entry__link\")(0)"))
    ∧ (∀ e, e.linkHref = some none →
        parse_user_id e = .error (.invalidData "missing user profile href"))
    ∧ (∀ e href, e.linkHref = some (some href) →
        parse_user_id e =
          match parseU32 (firstDigitRun href) with
          | some n => .ok n
          | none => .error (.parseFail (firstDigitRun href)))
    ∧ (∀ pre run post : List Char, (∀ c ∈ pre, c.isDigit = false) → run ≠ [] →
        (∀ c ∈ run, c.isDigit = true) →
        (∀ c, post.head? = some c → c.isDigit = false) →
        firstDigitRun (pre ++ run ++ post).asString = run.asString)
    ∧ (∀ s : String, s.toList ≠ [] → (∀ c ∈ s.toList, c.isDigit = true) →
        parseU32 s = if digitsVal s.toList < 2 ^ 32 then some (digitsVal s.toList) else none)
    ∧ parseU32 "" = none := by
  refine ⟨?_, ?_, ?_, ?_, ?_, rfl⟩
  · intro e he
    simp only [parse_user_id, he]
  · intro e he
    simp only [parse_user_id, he]
  · intro e href he
    simp only [parse_user_id, he]
  · intro pre run post hpre hne hrun hpost
    simp only [firstDigitRun, toList_asString]
    rw [List.append_assoc]
    rw [dropWhile_append_all _ pre (run ++ post) (fun a ha => by simp [hpre a ha])]
    cases hr : run with
    | nil => exact absurd hr hne
    | cons r rs =>
      have hrd : r.isDigit = true := hrun r (by rw [hr]; simp)
      rw [List.cons_append, List.dropWhile_cons]
      simp only [hrd, Bool.not_true, Bool.false_eq_true, if_false]
      rw [← List.cons_append, ← hr]
      rw [takeWhile_append_all _ run post hrun]
      have hp : post.takeWhile (fun c => c.isDigit) = [] := by
        cases hq : post with
        | nil => rfl
        | cons q qs =>
          rw [List.takeWhile_cons]
          simp [hpost q (by rw [hq]; rfl)]
      rw [hp, List.append_nil]
  · intro s hne hdig
    simp only [parseU32]
    have hplus : (if s.toList.head? = some '+' then s.toList.tail else s.toList) = s.toList := by
      cases hl : s.toList with
      | nil => simp
      | cons c cs =>
        have hc : c.isDigit = true := hdig c (by rw [hl]; simp)
        rw [if_neg ?_]
        intro he
        simp only [List.head?] at he
        injection he with he'
        rw [he'] at hc
        exact absurd hc (by decide)
    rw [hplus]
    by_cases hlt : digitsVal s.toList < 2 ^ 32
    · rw [if_pos ⟨hne, List.all_eq_true.mpr hdig, hlt⟩, if_pos hlt]
    · rw [if_neg (fun hcon => hlt hcon.2.2), if_neg hlt]

/-- Witness for C7: a concrete entry link yields its id, and the digit-run
characterization at a concrete decomposition. -/
theorem parse_user_id_digit_run_witness :
    parse_user_id ⟨some (some "/lodestone/character/123/"), some "N", some "W",
        some (some "img")⟩ = .ok 123
    ∧ firstDigitRun ("/ab".toList ++ "123".toList ++ "/x9".toList).asString =
        "123".toList.asString :=
  ⟨(parse_user_id_digit_run.2.2.1 _ "/lodestone/character/123/" rfl).trans rfl,
   parse_user_id_digit_run.2.2.2.1 "/ab".toList "123".toList "/x9".toList
     (by decide) (by decide) (by decide) (by decide)⟩

/-- Test search-result entries: two that decode cleanly and one whose world
text is malformed (no `" ["` separator). -/
def demoEntryA : EntryNode :=
  ⟨some (some "/lodestone/character/11/"), some "Alice", some "Gilgamesh [Primal]",
    some (some "img1")⟩

def demoEntryBad : EntryNode :=
  ⟨some (some "/lodestone/character/22/"), some "Bob", some "Nowhere",
    some (some "img2")⟩

def demoEntryC : EntryNode :=
  ⟨some (some "/lodestone/character/33/"), some "Carol", some "Gilgamesh [Primal]",
    some (some "img3")⟩

/-- C8: `send_light` on a fetched results document always returns `Ok`, with
exactly the entries that decode cleanly, in order; a malformed entry is
dropped, not propagated, and a page where every entry fails yields an empty
collection. -/
theorem send_light_drops_failures :
    (∀ (S D : Type) (sc : String → Except SearchError S)
        (dc : String → Except SearchError D) (entries : List EntryNode),
        send_light sc dc entries =
          .ok (entries.filterMap (fun e =>
            match create_from sc dc e with
            | .ok p => some p
            | .error _ => none)))
    ∧ (∀ (S D : Type) (sc : String → Except SearchError S)
        (dc : String → Except SearchError D) (entries : List EntryNode),
        ∃ l, send_light sc dc entries = .ok l)
    ∧ send_light okCodec okCodec [demoEntryA, demoEntryBad, demoEntryC] =
        .ok [⟨11, "Alice", "Gilgamesh", "Primal", "img1"⟩,
          ⟨33, "Carol", "Gilgamesh", "Primal", "img3"⟩]
    ∧ create_from okCodec okCodec demoEntryBad = .error (.invalidData "entry__world")
    ∧ send_light okCodec okCodec [demoEntryBad] =
        .ok ([] : List (LightProfile String String)) :=
  ⟨fun _ _ _ _ _ => rfl, fun _ _ _ _ _ => ⟨_, rfl⟩, rfl, rfl, rfl⟩

/-- C9: `server` sets the server and clears the datacenter, `datacenter` sets
the datacenter and clears the server, each leaving the other criteria fields
unchanged; consequently no state reachable by fluent calls has both set. -/
theorem searchbuilder_server_dc_exclusive :
    (∀ (Dom S D L G : Type) (b : SearchBuilder Dom S D L G) (x : S),
        (b.setServer x).server = some x ∧ (b.setServer x).datacenter = none
        ∧ (b.setServer x).domain = b.domain ∧ (b.setServer x).character = b.character
        ∧ (b.setServer x).lang = b.lang ∧ (b.setServer x).gc = b.gc)
    ∧ (∀ (Dom S D L G : Type) (b : SearchBuilder Dom S D L G) (y : D),
        (b.setDatacenter y).datacenter = some y ∧ (b.setDatacenter y).server = none
        ∧ (b.setDatacenter y).domain = b.domain ∧ (b.setDatacenter y).character = b.character
        ∧ (b.setDatacenter y).lang = b.lang ∧ (b.setDatacenter y).gc = b.gc)
    ∧ (∀ (Dom S D L G : Type) [DecidableEq L] [DecidableEq G]
        (b : SearchBuilder Dom S D L G), ReachableBuilder b →
        ¬(b.server.isSome = true ∧ b.datacenter.isSome = true)) := by
  refine ⟨?_, ?_, ?_⟩
  · intro Dom S D L G b x
    exact ⟨rfl, rfl, rfl, rfl, rfl, rfl⟩
  · intro Dom S D L G b y
    exact ⟨rfl, rfl, rfl, rfl, rfl, rfl⟩
  · intro Dom S D L G iL iG b hr
    induction hr with
    | new => simp [SearchBuilder.new]
    | dom b d hb ih => simpa [SearchBuilder.setDomain] using ih
    | chara b n hb ih => simpa [SearchBuilder.setCharacter] using ih
    | dc b d hb ih => simp [SearchBuilder.setDatacenter]
    | srv b s hb ih => simp [SearchBuilder.setServer]
    | lng b l hb ih => simpa [SearchBuilder.addLang] using ih
    | gco b g hb ih => simpa [SearchBuilder.addGrandCompany] using ih

/-- Witness for C9: after `.datacenter` then `.server` on a fresh builder the
two fields are not both set. -/
theorem searchbuilder_server_dc_exclusive_witness :
    ¬((((SearchBuilder.new : SearchBuilder Unit Unit Unit Unit Unit).setDatacenter
          ()).setServer ()).server.isSome = true
      ∧ (((SearchBuilder.new : SearchBuilder Unit Unit Unit Unit Unit).setDatacenter
          ()).setServer ()).datacenter.isSome = true) :=
  searchbuilder_server_dc_exclusive.2.2 Unit Unit Unit Unit Unit _
    (ReachableBuilder.srv _ () (ReachableBuilder.dc _ () ReachableBuilder.new))

/-- C10: `Profile::level` returns `some l` exactly when the classes map holds
an entry with a present `ClassInfo` of level `l`; an absent key and a key
mapped to no `ClassInfo` (the `"-"` level text of the listing) both give
`none`, and `level` / `class_info` cannot distinguish the two cases. -/
theorem profile_level_lookup :
    (∀ (m : Classes) (c : ClassType) (l : Nat),
        levelOf m c = some l ↔ ∃ info, m c = some (some info) ∧ info.level = l)
    ∧ (∀ (m : Classes) (c : ClassType), m c = none → levelOf m c = none)
    ∧ (∀ (m : Classes) (c : ClassType), m c = some none → levelOf m c = none)
    ∧ (∀ (m : Classes) (c x : ClassType),
        levelOf (m.insert c none) x = levelOf (fun y => if y = c then none else m y) x)
    ∧ (∀ (m : Classes) (c x : ClassType),
        classInfoOf (m.insert c none) x =
          classInfoOf (fun y => if y = c then none else m y) x)
    ∧ (∀ (f : String → Except SearchError ClassType) (it : ClassItem)
        (r : ClassType × Option ClassInfo), it.levelText = "-" →
        decodeItem f it = .ok r → r.2 = none) := by
  refine ⟨?_, ?_, ?_, ?_, ?_, ?_⟩
  · intro m c l
    cases hm : m c with
    | none => simp [levelOf, classInfoOf, Classes.get, hm]
    | some o =>
      cases o with
      | none => simp [levelOf, classInfoOf, Classes.get, hm]
      | some info => simp [levelOf, classInfoOf, Classes.get, hm, eq_comm]
  · intro m c hm
    simp [levelOf, classInfoOf, Classes.get, hm]
  · intro m c hm
    simp [levelOf, classInfoOf, Classes.get, hm]
  · intro m c x
    by_cases hx : x = c
    · simp [levelOf, classInfoOf, Classes.get, Classes.insert, hx]
    · simp [levelOf, classInfoOf, Classes.get, Classes.insert, hx]
  · intro m c x
    by_cases hx : x = c
    · simp [classInfoOf, Classes.get, Classes.insert, hx]
    · simp [classInfoOf, Classes.get, Classes.insert, hx]
  · intro f it r hlv hok
    have hd : decodeClassInfo it.levelText it.expText = .ok none := by
      rw [hlv]
      rfl
    simp only [decodeItem, hd] at hok
    cases hg : (splitOnStr it.name " / ").get? 0 with
    | none =>
      simp only [hg] at hok
      cases hok
    | some nm =>
      simp only [hg] at hok
      cases hf : f nm with
      | error e =>
        simp only [hf] at hok
        cases hok
      | ok c =>
        simp only [hf, Except.ok.injEq] at hok
        rw [← hok]

/-- Witness for C10: a map holding Paladin at level 80 reports it, and a
listing item with level text `"-"` decodes to a key with no `ClassInfo`. -/
theorem profile_level_lookup_witness :
    levelOf (Classes.insert Classes.empty .Paladin (some ⟨80, none, none⟩)) .Paladin = some 80
    ∧ ((ClassType.Gladiator, (none : Option ClassInfo)).2 = none) :=
  ⟨(profile_level_lookup.1 _ .Paladin 80).mpr ⟨⟨80, none, none⟩, rfl, rfl⟩,
   profile_level_lookup.2.2.2.2.2 demoClassCodec ⟨"Gladiator", "-", ""⟩
     (.Gladiator, none) rfl rfl⟩
